import Mathlib

set_option maxRecDepth 100000
set_option maxHeartbeats 4000000

/-!
Verification development for `subfinder/subsearcher.py`.

The Python module is shallowly embedded: a binary file is a byte string
(`Bytes`: base-256 little-endian packed `data` together with its `size` in
bytes), exceptions become an explicit error type (`SubError`), the HTTP
session becomes an injected `transport` function, and the per-language
request loop additionally records the trace of issued requests so that
properties about network activity can be stated.  `videofile` arguments
are taken to be already-absolute paths (`os.path.abspath` is the identity
on them).  All definitions are executable; the hashing loops are written
tail-recursively with an evaluation guard (`seqNat`) so that concrete
fingerprints reduce by plain kernel computation.
-/

/-! ### 32-bit word helpers (machine integers as `Nat` mod `2 ^ 32`) -/

/-- Addition modulo `2 ^ 32`. -/
def wadd (a b : Nat) : Nat := (a + b) % 4294967296

/-- Bitwise complement within 32 bits (argument assumed `< 2 ^ 32`). -/
def wnot (x : Nat) : Nat := x ^^^ 4294967295

/-- Left rotation of a 32-bit word. -/
def rotl (x n : Nat) : Nat := ((x <<< n) ||| (x >>> (32 - n))) % 4294967296

/-- Identity on the continuation, phrased so that kernel reduction brings
`n` to literal form before the continuation is unfolded; this keeps the
reduction stack shallow on long tail-recursive computations. -/
def seqNat (n : Nat) (k : Nat → α) : α := if n % 2 = 0 then k n else k n

/-! ### Byte strings

A byte string packs its bytes as base-256 digits of a natural number,
least significant digit first, together with the byte count.  Byte `i` of
`b : Bytes` is `b.data / 256 ^ i % 256`. -/

structure Bytes where
  data : Nat
  size : Nat
deriving DecidableEq

/-- `fp.seek(pos); fp.read(n)`: the bytes of `b` from position `pos`, at
most `n` of them, fewer when the file ends earlier (a short read). -/
def readAt (b : Bytes) (pos n : Nat) : Bytes :=
  ⟨((b.data % (1 <<< (8 * b.size))) >>> (8 * pos)) % (1 <<< (8 * min n (b.size - pos))),
   min n (b.size - pos)⟩

/-! ### MD5 (RFC 1321), executable over packed byte strings -/

/-- Per-round left-rotation amounts. -/
def md5S : List Nat :=
  [7, 12, 17, 22, 7, 12, 17, 22, 7, 12, 17, 22, 7, 12, 17, 22,
   5, 9, 14, 20, 5, 9, 14, 20, 5, 9, 14, 20, 5, 9, 14, 20,
   4, 11, 16, 23, 4, 11, 16, 23, 4, 11, 16, 23, 4, 11, 16, 23,
   6, 10, 15, 21, 6, 10, 15, 21, 6, 10, 15, 21, 6, 10, 15, 21]

/-- Per-round additive constants, `floor(abs(sin(i + 1)) * 2 ^ 32)`. -/
def md5K : List Nat :=
  [0xd76aa478, 0xe8c7b756, 0x242070db, 0xc1bdceee,
   0xf57c0faf, 0x4787c62a, 0xa8304613, 0xfd469501,
   0x698098d8, 0x8b44f7af, 0xffff5bb1, 0x895cd7be,
   0x6b901122, 0xfd987193, 0xa679438e, 0x49b40821,
   0xf61e2562, 0xc040b340, 0x265e5a51, 0xe9b6c7aa,
   0xd62f105d, 0x02441453, 0xd8a1e681, 0xe7d3fbc8,
   0x21e1cde6, 0xc33707d6, 0xf4d50d87, 0x455a14ed,
   0xa9e3e905, 0xfcefa3f8, 0x676f02d9, 0x8d2a4c8a,
   0xfffa3942, 0x8771f681, 0x6d9d6122, 0xfde5380c,
   0xa4beea44, 0x4bdecfa9, 0xf6bb4b60, 0xbebfbc70,
   0x289b7ec6, 0xeaa127fa, 0xd4ef3085, 0x04881d05,
   0xd9d4d039, 0xe6db99e5, 0x1fa27cf8, 0xc4ac5665,
   0xf4292244, 0x432aff97, 0xab9423a7, 0xfc93a039,
   0x655b59c3, 0x8f0ccc92, 0xffeff47d, 0x85845dd1,
   0x6fa87e4f, 0xfe2ce6e0, 0xa3014314, 0x4e0811a1,
   0xf7537e82, 0xbd3af235, 0x2ad7d2bb, 0xeb86d391]

structure MD5State where
  a : Nat
  b : Nat
  c : Nat
  d : Nat
deriving DecidableEq

def md5Init : MD5State := ⟨0x67452301, 0xefcdab89, 0x98badcfe, 0x10325476⟩

def md5F (x y z : Nat) : Nat := (x &&& y) ||| (wnot x &&& z)
def md5G (x y z : Nat) : Nat := (x &&& z) ||| (y &&& wnot z)
def md5H (x y z : Nat) : Nat := x ^^^ y ^^^ z
def md5I (x y z : Nat) : Nat := y ^^^ (x ||| wnot z)

/-- Word `j` (little endian) of a packed 64-byte block. -/
def md5WordAt (blk j : Nat) : Nat := (blk >>> (32 * j)) % 4294967296

/-- The 64 MD5 rounds on one block, fuel counting down from 64. -/
def md5Rounds (blk : Nat) : Nat → Nat → Nat → Nat → Nat → MD5State
  | 0, a, b, c, d => ⟨a, b, c, d⟩
  | i + 1, a, b, c, d =>
    let r := 63 - i
    let fg : Nat × Nat :=
      if r < 16 then (md5F b c d, r)
      else if r < 32 then (md5G b c d, (5 * r + 1) % 16)
      else if r < 48 then (md5H b c d, (3 * r + 5) % 16)
      else (md5I b c d, (7 * r) % 16)
    let tmp := (a + fg.1 + md5K.getD r 0 + md5WordAt blk fg.2) % 4294967296
    seqNat (wadd b (rotl tmp (md5S.getD r 0))) fun nb => md5Rounds blk i d nb b c

/-- Process `n` packed 64-byte blocks (least significant block first). -/
def md5Blocks : Nat → Nat → MD5State → MD5State
  | 0, _, st => st
  | n + 1, pad, st =>
    let blk := pad % (1 <<< 512)
    let r := md5Rounds blk 64 st.a st.b st.c st.d
    seqNat (wadd st.a r.a) fun a =>
    seqNat (wadd st.b r.b) fun b =>
    seqNat (wadd st.c r.c) fun c =>
    seqNat (wadd st.d r.d) fun d =>
    seqNat (pad >>> 512) fun rest => md5Blocks n rest ⟨a, b, c, d⟩

/-- MD5 padding of a byte string: `0x80`, zeros to 56 mod 64, then the
8-byte little-endian bit length.  Returns the packed padded message and
its number of 64-byte blocks. -/
def md5PadData (b : Bytes) : Nat × Nat :=
  let zeros := (119 - b.size % 64) % 64
  let total := b.size + 1 + zeros + 8
  (b.data % (1 <<< (8 * b.size)) + 128 * (1 <<< (8 * b.size)) +
    b.size * 8 % 18446744073709551616 * (1 <<< (8 * (total - 8))), total / 64)

/-- The final MD5 state over a byte string. -/
def md5Final (b : Bytes) : MD5State :=
  let pn := md5PadData b
  md5Blocks pn.2 pn.1 md5Init

/-- Lowercase hexadecimal digit for `n < 16`. -/
def hexDigit (n : Nat) : Char :=
  if n < 10 then Char.ofNat (48 + n) else Char.ofNat (87 + n)

/-- Two lowercase hex characters for a byte. -/
def byteHex (b : Nat) : List Char := [hexDigit (b / 16), hexDigit (b % 16)]

/-- Hex rendering of one 32-bit word, least significant byte first. -/
def word8Hex (x : Nat) : String :=
  String.mk (byteHex (x % 256) ++ byteHex (x / 256 % 256) ++
    byteHex (x / 65536 % 256) ++ byteHex (x / 16777216 % 256))

/-- `hashlib.md5(data).hexdigest()`: the 32-character lowercase hex digest. -/
def md5hex (b : Bytes) : String :=
  let st := md5Final b
  word8Hex st.a ++ word8Hex st.b ++ word8Hex st.c ++ word8Hex st.d

/-- The sixteen lowercase hexadecimal characters. -/
def hexChars : List Char := "0123456789abcdef".data

/-- `";".join(l)` from the source. -/
def semiJoin : List String → String
  | [] => ""
  | [s] => s
  | s :: rest => s ++ ";" ++ semiJoin rest

/-! ### POSIX path helpers (`os.path.split`, `os.path.splitext`,
`os.path.join`, `os.path.basename`) -/

/-- One past the index of the last occurrence of `ch`, or `0` if absent
(`p.rfind(ch) + 1` in Python). -/
def afterLastChar (ch : Char) : List Char → Nat
  | [] => 0
  | c :: cs =>
    let r := afterLastChar ch cs
    if r > 0 then r + 1 else if c = ch then 1 else 0

/-- `os.path.split`: split into `(head, tail)` at the final slash; the head
keeps no trailing slashes unless it consists only of slashes. -/
def osPathSplit (p : String) : String × String :=
  let cs := p.data
  let i := afterLastChar '/' cs
  let head := cs.take i
  let tail := cs.drop i
  let head2 :=
    if head.any (fun c => c != '/') then
      (head.reverse.dropWhile (fun c => c == '/')).reverse
    else head
  (String.mk head2, String.mk tail)

/-- `os.path.basename`. -/
def osPathBasename (p : String) : String := (osPathSplit p).2

/-- `os.path.splitext`: split off the extension at the last dot, unless the
final component has only leading dots. -/
def osPathSplitext (p : String) : String × String :=
  let cs := p.data
  let si := afterLastChar '/' cs
  let di := afterLastChar '.' cs
  if di > si ∧ ((cs.take (di - 1)).drop si).any (fun c => c != '.') then
    (String.mk (cs.take (di - 1)), String.mk (cs.drop (di - 1)))
  else (p, "")

/-- `os.path.join` for two components. -/
def osPathJoin (a b : String) : String :=
  if b.data.head? = some '/' then b
  else if a = "" ∨ a.data.getLast? = some '/' then a ++ b
  else a ++ "/" ++ b

/-- ASCII lowercasing of one character (`str.lower()` on the extension
strings the source handles). -/
def charToLower (c : Char) : Char :=
  if 65 ≤ c.toNat ∧ c.toNat ≤ 90 then Char.ofNat (c.toNat + 32) else c

/-- `s.lower()` of the source, character by character. -/
def strToLower (s : String) : String := String.mk (s.data.map charToLower)

/-! ### Data model of the searcher module -/

/-- One entry of the `Files` list of a remote response item
(`{Ext, Link}`). -/
structure SubFile where
  ext : String
  link : String
deriving DecidableEq

/-- One raw response item (`{Desc, Delay, Files}`). -/
structure SubInfo where
  desc : String
  delay : Int
  files : List SubFile
deriving DecidableEq

/-- One returned subtitle record
(`{link, language, subname, ext}` in `search_subs`). -/
structure Subtitle where
  link : String
  language : String
  subname : String
  ext : String
deriving DecidableEq

/-- The exception classes of the `exceptions` module that `subsearcher.py`
raises. -/
inductive SubError where
  | languageError (msg : String)
  | extError (msg : String)
  | invalidFileError (msg : String)
  | searchingSubinfoError (msg : String)
deriving DecidableEq

/-- The form fields posted to the remote service for one language. -/
structure Payload where
  filehash : String
  pathinfo : String
  format : String
  lang : String
deriving DecidableEq

deriving instance DecidableEq for Except

/-! ### Provider registry -/

/-- A provider class object: its `__name__` and whether it is a subclass of
`BaseSubSearcher` (the only property of the class that
`register_subsearcher` inspects). -/
structure SubSearcherCls where
  clsName : String
  isSubclassOfBase : Bool
deriving DecidableEq

/-- Python `dict` assignment `d[k] = v`: replace in place, else append. -/
def dictInsert : List (String × α) → String → α → List (String × α)
  | [], k, v => [(k, v)]
  | (k', v') :: rest, k, v =>
    if k' = k then (k, v) :: rest else (k', v') :: dictInsert rest k v

/-- Python `dict` membership lookup. -/
def dictGet? : List (String × α) → String → Option α
  | [], _ => none
  | (k', v') :: rest, k => if k' = k then some v' else dictGet? rest k

/-- `register_subsearcher(name, subsearcher_cls)`: `ValueError` unless the
class is a subclass of `BaseSubSearcher`, otherwise
`registered_subsearchers[name] = subsearcher_cls`. -/
def register_subsearcher (reg : List (String × SubSearcherCls)) (name : String)
    (subsearcher_cls : SubSearcherCls) : Except String (List (String × SubSearcherCls)) :=
  if ¬ subsearcher_cls.isSubclassOfBase then
    .error (subsearcher_cls.clsName ++ " is not a subclass of BaseSubSearcher")
  else .ok (dictInsert reg name subsearcher_cls)

/-- `get_subsearcher(name, default=None)`:
`registered_subsearchers.get(name, default)`. -/
def get_subsearcher (reg : List (String × SubSearcherCls)) (name : String)
    (default : Option SubSearcherCls) : Option SubSearcherCls :=
  match dictGet? reg name with
  | some c => some c
  | none => default

/-! ### `BaseSubSearcher` class methods -/

/-- `BaseSubSearcher._check_languages`, parametrised by the class name and
its `SUPPORT_LANGUAGES`. -/
def check_languages (clsName : String) (supportLanguages : List String) :
    List String → Except SubError Unit
  | [] => .ok ()
  | lang :: rest =>
    if lang ∈ supportLanguages then check_languages clsName supportLanguages rest
    else .error (.languageError (clsName ++ " does not support " ++ lang ++ " language"))

/-- `BaseSubSearcher._check_exts`, parametrised by the class name and its
`SUPPORT_EXTS`. -/
def check_exts (clsName : String) (supportExts : List String) :
    List String → Except SubError Unit
  | [] => .ok ()
  | ext :: rest =>
    if ext ∈ supportExts then check_exts clsName supportExts rest
    else .error (.extError (clsName ++ " does not support " ++ ext ++ " ext"))

/-! ### `ShooterSubSearcher` -/

namespace ShooterSubSearcher

def API_URL : String := "https://www.shooter.cn/api/subapi.php"

def SUPPORT_LANGUAGES : List String := ["Chn", "Eng"]

def SUPPORT_EXTS : List String := ["ass", "srt"]

/-- `ShooterSubSearcher._gen_subname(videofile, language, ext)`. -/
def gen_subname (videofile language ext : String) : String :=
  let basename := (osPathSplit videofile).2
  let name := (osPathSplitext basename).1
  osPathJoin (osPathSplit videofile).1 (name ++ "." ++ language ++ "." ++ ext)

/-- `ShooterSubSearcher._compute_video_hash(videofile)`; the file's bytes
are passed explicitly as `content`. -/
def compute_video_hash (videofile : String) (content : Bytes) : Except SubError String :=
  let total_size := content.size
  if total_size < 8192 + 4096 then
    .error (.invalidFileError ("the video[" ++ osPathBasename videofile ++ "] is too small"))
  else
    let seek_positions : List Nat :=
      [4096, total_size / 3 * 2, total_size / 3, total_size - 8192]
    .ok (semiJoin (seek_positions.map fun pos => md5hex (readAt content pos 4096)))

/-- The default-language substitution at the top of `search_subs`
(`languages` is modelled as `Option (List String)`; a caller passing one
bare token wraps it in a singleton list). -/
def defaultLangs : Option (List String) → List String
  | none => [SUPPORT_LANGUAGES.headD ""]
  | some ls => ls

/-- The per-language request loop of `search_subs`: one POST per language,
`result[language] = res.json()`, any failure raised as
`SearchingSubinfoError`.  The second component is the trace of issued
requests. -/
def queryLoop (transport : Payload → Except String (List SubInfo))
    (filehash basename : String) :
    List String → List (String × List SubInfo) → List Payload →
      Except SubError (List (String × List SubInfo)) × List Payload
  | [], result, log => (.ok result, log)
  | language :: rest, result, log =>
    let payload : Payload := ⟨filehash, basename, "json", language⟩
    match transport payload with
    | .error e => (.error (.searchingSubinfoError e), log ++ [payload])
    | .ok r =>
      queryLoop transport filehash basename rest (dictInsert result language r)
        (log ++ [payload])

/-- The inner loop of the normalisation phase over the `Files` entries of
one language, carrying the `ext_set` and the accumulated `subinfos`. -/
def procFiles (videofile language : String) (exts : List String) :
    List SubFile → List String → List Subtitle → List String × List Subtitle
  | [], ext_set, subinfos => (ext_set, subinfos)
  | item :: rest, ext_set, subinfos =>
    let ext_ := strToLower item.ext
    let link := item.link
    if ext_ ∈ exts ∧ ext_ ∉ ext_set then
      procFiles videofile language exts rest (ext_ :: ext_set)
        (subinfos ++ [⟨link, language, gen_subname videofile language ext_, ext_⟩])
    else procFiles videofile language exts rest ext_set subinfos

/-- The loop of the normalisation phase over the response items of one
language. -/
def procInfos (videofile language : String) (exts : List String) :
    List SubInfo → List String → List Subtitle → List String × List Subtitle
  | [], ext_set, subinfos => (ext_set, subinfos)
  | subinfo :: rest, ext_set, subinfos =>
    let p := procFiles videofile language exts subinfo.files ext_set subinfos
    procInfos videofile language exts rest p.1 p.2

/-- The outer normalisation loop over `result.items()`: each language gets
a fresh `ext_set` while `subinfos` keeps accumulating. -/
def normLoop (videofile : String) (exts : List String) :
    List (String × List SubInfo) → List Subtitle → List Subtitle
  | [], subinfos => subinfos
  | (language, subinfolist) :: rest, subinfos =>
    normLoop videofile exts rest
      (procInfos videofile language exts subinfolist [] subinfos).2

/-- Normalisation of the raw response list of a single language. -/
def normalizeLang (videofile : String) (exts : List String) (language : String)
    (subinfolist : List SubInfo) : List Subtitle :=
  (procInfos videofile language exts subinfolist [] []).2

/-- `ShooterSubSearcher.search_subs(videofile, languages, exts)`.  The file
bytes are passed as `content`, the HTTP session as `transport`; the second
component of the result is the trace of network requests issued. -/
def search_subs (transport : Payload → Except String (List SubInfo))
    (videofile : String) (content : Bytes) (languages : Option (List String))
    (exts : Option (List String)) :
    Except SubError (List Subtitle) × List Payload :=
  let langs := defaultLangs languages
  match check_languages "ShooterSubSearcher" SUPPORT_LANGUAGES langs with
  | .error e => (.error e, [])
  | .ok _ =>
    let exts_ := exts.getD SUPPORT_EXTS
    match check_exts "ShooterSubSearcher" SUPPORT_EXTS exts_ with
    | .error e => (.error e, [])
    | .ok _ =>
      match compute_video_hash videofile content with
      | .error e => (.error e, [])
      | .ok filehash =>
        match queryLoop transport filehash (osPathSplit videofile).2 langs [] [] with
        | (.error e, log) => (.error e, log)
        | (.ok result, log) => (.ok (normLoop videofile exts_ result []), log)

end ShooterSubSearcher

open ShooterSubSearcher

/-! ### Reduction lemmas for the hashing loop -/

theorem seqNat_eq (n : Nat) (k : Nat → α) : seqNat n k = k n := by
  unfold seqNat; split <;> rfl

theorem md5Blocks_add (m n : Nat) (pad : Nat) (st : MD5State) :
    md5Blocks (m + n) pad st =
      md5Blocks n (pad >>> (512 * m)) (md5Blocks m pad st) := by
  induction m generalizing pad st with
  | zero => simp [md5Blocks]
  | succ m ih =>
    have h1 : m + 1 + n = (m + n) + 1 := by omega
    rw [h1]
    simp only [md5Blocks, seqNat_eq]
    rw [ih]
    have h2 : (pad >>> 512) >>> (512 * m) = pad >>> (512 * (m + 1)) := by
      rw [← Nat.shiftRight_add]
      congr 1
      ring
    rw [h2]

/-- The packed padded message of the all-zero 4096-byte window. -/
def padZ4096 : Nat := (md5PadData ⟨0, 4096⟩).1

/-- The packed padded message of the 4096-byte window whose last byte is 1
and all others 0 (`1 <<< 32760 = 256 ^ 4095`). -/
def padW4096 : Nat := (md5PadData ⟨1 <<< 32760, 4096⟩).1

theorem md5Blocks_z4096_1 :
    md5Blocks 22 padZ4096 md5Init =
      ⟨3078702856, 524001743, 829622332, 1158097732⟩ := by decide

theorem md5Blocks_z4096_2 :
    md5Blocks 22 (padZ4096 >>> (512 * 22))
        ⟨3078702856, 524001743, 829622332, 1158097732⟩ =
      ⟨2719977361, 2183312832, 2200496891, 1893216127⟩ := by decide

theorem md5Blocks_z4096_3 :
    md5Blocks 21 (padZ4096 >>> (512 * 44))
        ⟨2719977361, 2183312832, 2200496891, 1893216127⟩ =
      ⟨1728778082, 1954488233, 3200588565, 275864436⟩ := by decide

theorem md5Blocks_w4096_1 :
    md5Blocks 22 padW4096 md5Init =
      ⟨3078702856, 524001743, 829622332, 1158097732⟩ := by decide

theorem md5Blocks_w4096_2 :
    md5Blocks 22 (padW4096 >>> (512 * 22))
        ⟨3078702856, 524001743, 829622332, 1158097732⟩ =
      ⟨2719977361, 2183312832, 2200496891, 1893216127⟩ := by decide

theorem md5Blocks_w4096_3 :
    md5Blocks 21 (padW4096 >>> (512 * 44))
        ⟨2719977361, 2183312832, 2200496891, 1893216127⟩ =
      ⟨1705642703, 2331459950, 3196880647, 1213835703⟩ := by decide

theorem md5Final_z4096 :
    md5Final ⟨0, 4096⟩ = ⟨1728778082, 1954488233, 3200588565, 275864436⟩ := by
  have h65 : (md5PadData (⟨0, 4096⟩ : Bytes)).2 = 22 + (22 + 21) := by decide
  have e1 : md5Final ⟨0, 4096⟩ =
      md5Blocks (md5PadData (⟨0, 4096⟩ : Bytes)).2 padZ4096 md5Init := rfl
  rw [e1, h65, md5Blocks_add, md5Blocks_z4096_1, md5Blocks_add, md5Blocks_z4096_2]
  rw [show (padZ4096 >>> (512 * 22)) >>> (512 * 22) = padZ4096 >>> (512 * 44) by
        rw [← Nat.shiftRight_add]]
  exact md5Blocks_z4096_3

theorem md5Final_w4096 :
    md5Final ⟨1 <<< 32760, 4096⟩ =
      ⟨1705642703, 2331459950, 3196880647, 1213835703⟩ := by
  have h65 : (md5PadData (⟨1 <<< 32760, 4096⟩ : Bytes)).2 = 22 + (22 + 21) := by decide
  have e1 : md5Final ⟨1 <<< 32760, 4096⟩ =
      md5Blocks (md5PadData (⟨1 <<< 32760, 4096⟩ : Bytes)).2 padW4096 md5Init := rfl
  rw [e1, h65, md5Blocks_add, md5Blocks_w4096_1, md5Blocks_add, md5Blocks_w4096_2]
  rw [show (padW4096 >>> (512 * 22)) >>> (512 * 22) = padW4096 >>> (512 * 44) by
        rw [← Nat.shiftRight_add]]
  exact md5Blocks_w4096_3

theorem md5hex_def (b : Bytes) :
    md5hex b = word8Hex (md5Final b).a ++ word8Hex (md5Final b).b ++
      word8Hex (md5Final b).c ++ word8Hex (md5Final b).d := rfl

theorem md5hex_z4096 : md5hex ⟨0, 4096⟩ = "620f0b67a91f7f74151bc5be745b7110" := by
  rw [md5hex_def, md5Final_z4096]
  decide

theorem md5hex_w4096 :
    md5hex ⟨1 <<< 32760, 4096⟩ = "cf0aaa656e41f78a07878cbeb7a95948" := by
  rw [md5hex_def, md5Final_w4096]
  decide

/-! ### Shape of hex digests -/

theorem word8Hex_length (x : Nat) : (word8Hex x).length = 8 := rfl

theorem md5hex_length (b : Bytes) : (md5hex b).length = 32 := by
  rw [md5hex_def]
  simp [String.length_append, word8Hex_length]

theorem hexDigit_mem_hexChars (n : Nat) (h : n < 16) : hexDigit n ∈ hexChars := by
  revert h
  revert n
  decide

theorem byteHex_chars (b : Nat) (hb : b < 256) :
    ∀ c ∈ byteHex b, c ∈ hexChars := by
  intro c hc
  simp only [byteHex, List.mem_cons, List.not_mem_nil, or_false] at hc
  rcases hc with h | h <;> subst h <;> exact hexDigit_mem_hexChars _ (by omega)

theorem word8Hex_chars (x : Nat) : ∀ c ∈ (word8Hex x).data, c ∈ hexChars := by
  intro c hc
  simp only [word8Hex, List.mem_append] at hc
  rcases hc with ((h | h) | h) | h <;>
    exact byteHex_chars _ (by omega) _ h

theorem md5hex_chars (b : Bytes) : ∀ c ∈ (md5hex b).data, c ∈ hexChars := by
  intro c hc
  rw [md5hex_def] at hc
  simp only [String.data_append, List.mem_append] at hc
  rcases hc with ((h | h) | h) | h <;> exact word8Hex_chars _ _ h

/-! ### The fingerprint on large-enough files -/

theorem compute_video_hash_ok (videofile : String) (content : Bytes)
    (h : 12288 ≤ content.size) :
    compute_video_hash videofile content =
      .ok (semiJoin
        [md5hex (readAt content 4096 4096),
         md5hex (readAt content (content.size / 3 * 2) 4096),
         md5hex (readAt content (content.size / 3) 4096),
         md5hex (readAt content (content.size - 8192) 4096)]) := by
  unfold ShooterSubSearcher.compute_video_hash
  rw [if_neg (by omega)]
  rfl

/-- The fingerprint of a 12288-byte all-zero file: four identical window
digests. -/
def zerosFileHash : String :=
  "620f0b67a91f7f74151bc5be745b7110;620f0b67a91f7f74151bc5be745b7110;620f0b67a91f7f74151bc5be745b7110;620f0b67a91f7f74151bc5be745b7110"

theorem compute_video_hash_zeros12288 (videofile : String) :
    compute_video_hash videofile ⟨0, 12288⟩ = .ok zerosFileHash := by
  rw [compute_video_hash_ok videofile ⟨0, 12288⟩ (by decide)]
  have r1 : readAt ⟨0, 12288⟩ 4096 4096 = (⟨0, 4096⟩ : Bytes) := by decide
  have r2 : readAt ⟨0, 12288⟩ ((⟨0, 12288⟩ : Bytes).size / 3 * 2) 4096 =
      (⟨0, 4096⟩ : Bytes) := by decide
  have r3 : readAt ⟨0, 12288⟩ ((⟨0, 12288⟩ : Bytes).size / 3) 4096 =
      (⟨0, 4096⟩ : Bytes) := by decide
  have r4 : readAt ⟨0, 12288⟩ ((⟨0, 12288⟩ : Bytes).size - 8192) 4096 =
      (⟨0, 4096⟩ : Bytes) := by decide
  rw [r1, r2, r3, r4, md5hex_z4096]
  rfl

/-! ### The concrete file refuting the claimed offset formula -/

/-- A 12290-byte file whose byte 12288 is `1` and all other bytes are `0`
(`1 <<< 98304 = 256 ^ 12288`); `12290 % 3 = 2`, so `12290 / 3 * 2 = 8192`
while `2 * 12290 / 3 = 8193`. -/
def fileC1 : Bytes := ⟨1 <<< 98304, 12290⟩

/-- The fingerprint construction exactly as the specification words it:
window offsets `4096`, `⌊2T/3⌋`, `⌊T/3⌋`, `T - 8192`, in that order,
joined by `;`. -/
def claimC1Fingerprint (content : Bytes) : String :=
  semiJoin
    ([4096, 2 * content.size / 3, content.size / 3, content.size - 8192].map
      fun pos => md5hex (readAt content pos 4096))

theorem compute_video_hash_fileC1 :
    compute_video_hash "v.mkv" fileC1 = .ok zerosFileHash := by
  rw [compute_video_hash_ok "v.mkv" fileC1 (by decide)]
  have r1 : readAt fileC1 4096 4096 = (⟨0, 4096⟩ : Bytes) := by decide
  have r2 : readAt fileC1 (fileC1.size / 3 * 2) 4096 = (⟨0, 4096⟩ : Bytes) := by
    decide
  have r3 : readAt fileC1 (fileC1.size / 3) 4096 = (⟨0, 4096⟩ : Bytes) := by decide
  have r4 : readAt fileC1 (fileC1.size - 8192) 4096 = (⟨0, 4096⟩ : Bytes) := by
    decide
  rw [r1, r2, r3, r4, md5hex_z4096]
  rfl

theorem claimC1Fingerprint_fileC1 :
    claimC1Fingerprint fileC1 =
      "620f0b67a91f7f74151bc5be745b7110;cf0aaa656e41f78a07878cbeb7a95948;620f0b67a91f7f74151bc5be745b7110;620f0b67a91f7f74151bc5be745b7110" := by
  show semiJoin
      [md5hex (readAt fileC1 4096 4096),
       md5hex (readAt fileC1 (2 * fileC1.size / 3) 4096),
       md5hex (readAt fileC1 (fileC1.size / 3) 4096),
       md5hex (readAt fileC1 (fileC1.size - 8192) 4096)] = _
  have r1 : readAt fileC1 4096 4096 = (⟨0, 4096⟩ : Bytes) := by decide
  have r2 : readAt fileC1 (2 * fileC1.size / 3) 4096 =
      (⟨1 <<< 32760, 4096⟩ : Bytes) := by decide
  have r3 : readAt fileC1 (fileC1.size / 3) 4096 = (⟨0, 4096⟩ : Bytes) := by decide
  have r4 : readAt fileC1 (fileC1.size - 8192) 4096 = (⟨0, 4096⟩ : Bytes) := by
    decide
  rw [r1, r2, r3, r4, md5hex_z4096, md5hex_w4096]
  rfl

/-! ### Validation helpers -/

theorem check_languages_ok_mem (clsName : String) (sup langs : List String)
    (h : check_languages clsName sup langs = .ok ()) :
    ∀ l ∈ langs, l ∈ sup := by
  induction langs with
  | nil => intro l hl; simp at hl
  | cons a rest ih =>
    intro l hl
    simp only [check_languages] at h
    by_cases ha : a ∈ sup
    · rw [if_pos ha] at h
      rcases List.mem_cons.mp hl with rfl | hl'
      · exact ha
      · exact ih h l hl'
    · rw [if_neg ha] at h
      simp at h

theorem check_languages_complete (clsName : String) (sup langs : List String)
    (h : ∀ l ∈ langs, l ∈ sup) :
    check_languages clsName sup langs = .ok () := by
  induction langs with
  | nil => rfl
  | cons a rest ih =>
    simp only [check_languages]
    rw [if_pos (h a (by simp))]
    exact ih fun l hl => h l (by simp [hl])

theorem check_languages_unsupported (clsName : String) (sup langs : List String)
    (l : String) (hl : l ∈ langs) (h : l ∉ sup) :
    ∃ m, check_languages clsName sup langs = .error (.languageError m) := by
  induction langs with
  | nil => simp at hl
  | cons a rest ih =>
    simp only [check_languages]
    by_cases ha : a ∈ sup
    · rw [if_pos ha]
      rcases List.mem_cons.mp hl with rfl | hl'
      · exact absurd ha h
      · exact ih hl'
    · rw [if_neg ha]
      exact ⟨_, rfl⟩

theorem check_exts_ok_mem (clsName : String) (sup exts : List String)
    (h : check_exts clsName sup exts = .ok ()) :
    ∀ e ∈ exts, e ∈ sup := by
  induction exts with
  | nil => intro e he; simp at he
  | cons a rest ih =>
    intro e he
    simp only [check_exts] at h
    by_cases ha : a ∈ sup
    · rw [if_pos ha] at h
      rcases List.mem_cons.mp he with rfl | he'
      · exact ha
      · exact ih h e he'
    · rw [if_neg ha] at h
      simp at h

/-! ### Registry helpers -/

theorem dictGet?_insert_self {α : Type} (d : List (String × α)) (k : String) (v : α) :
    dictGet? (dictInsert d k v) k = some v := by
  induction d with
  | nil => simp [dictInsert, dictGet?]
  | cons p rest ih =>
    obtain ⟨k', v'⟩ := p
    by_cases hk : k' = k
    · subst hk
      simp [dictInsert, dictGet?]
    · simp [dictInsert, dictGet?, hk, ih]

theorem dictInsert_mem {α : Type} (d : List (String × α)) (k : String) (v : α)
    (q : String × α) (hq : q ∈ dictInsert d k v) : q ∈ d ∨ q.1 = k := by
  induction d with
  | nil =>
    simp [dictInsert] at hq
    exact Or.inr (congrArg Prod.fst hq)
  | cons p rest ih =>
    obtain ⟨k', v'⟩ := p
    by_cases hk : k' = k
    · subst hk
      simp [dictInsert] at hq
      rcases hq with h1 | h2
      · exact Or.inr (congrArg Prod.fst h1)
      · exact Or.inl (List.mem_cons_of_mem _ h2)
    · simp [dictInsert, hk] at hq
      rcases hq with h1 | h2
      · exact Or.inl (by rw [h1]; exact List.mem_cons_self _ _)
      · rcases ih h2 with h | h
        · exact Or.inl (List.mem_cons_of_mem _ h)
        · exact Or.inr h

/-! ### Normaliser invariants -/

theorem procFiles_mem (vf lang : String) (exts : List String) (items : List SubFile)
    (s : List String) (acc : List Subtitle) (d : Subtitle)
    (hd : d ∈ (procFiles vf lang exts items s acc).2) :
    d ∈ acc ∨
      (d.language = lang ∧ d.ext ∈ exts ∧ d.ext ∉ s ∧
        d.subname = gen_subname vf lang d.ext ∧
        ∃ it, items.find? (fun i => strToLower i.ext == d.ext) = some it ∧
          d.link = it.link) := by
  revert hd
  induction items generalizing s acc with
  | nil =>
    intro hd
    simp only [procFiles] at hd
    exact Or.inl hd
  | cons item rest ih =>
    intro hd
    simp only [procFiles] at hd
    by_cases hc : strToLower item.ext ∈ exts ∧ strToLower item.ext ∉ s
    · rw [if_pos hc] at hd
      rcases ih _ _ hd with hacc | ⟨hlang, hext, hnot, hsub, it, hfind, hlink⟩
      · rcases List.mem_append.mp hacc with hmem | hmem
        · exact Or.inl hmem
        · have hd' : d = ⟨item.link, lang, gen_subname vf lang (strToLower item.ext),
              strToLower item.ext⟩ := by simpa using hmem
          subst hd'
          refine Or.inr ⟨rfl, hc.1, hc.2, rfl, item, ?_, rfl⟩
          exact List.find?_cons_of_pos _ (by simp)
      · refine Or.inr ⟨hlang, hext, ?_, hsub, it, ?_, hlink⟩
        · exact fun hmem => hnot (List.mem_cons_of_mem _ hmem)
        · have hne : strToLower item.ext ≠ d.ext := by
            intro he
            exact hnot (he ▸ List.mem_cons_self _ _)
          rw [List.find?_cons_of_neg _ (by simp [hne])]
          exact hfind
    · rw [if_neg hc] at hd
      rcases ih _ _ hd with hacc | ⟨hlang, hext, hnot, hsub, it, hfind, hlink⟩
      · exact Or.inl hacc
      · refine Or.inr ⟨hlang, hext, hnot, hsub, it, ?_, hlink⟩
        have hne : strToLower item.ext ≠ d.ext := by
          intro he
          refine hc ⟨?_, ?_⟩
          · rw [he]; exact hext
          · rw [he]; exact hnot
        rw [List.find?_cons_of_neg _ (by simp [hne])]
        exact hfind

theorem procFiles_shape (vf lang : String) (exts : List String) (items : List SubFile)
    (s : List String) (acc : List Subtitle)
    (h1 : (acc.map Subtitle.ext).Nodup) (h2 : ∀ d ∈ acc, d.ext ∈ s) :
    ((procFiles vf lang exts items s acc).2.map Subtitle.ext).Nodup ∧
      (∀ d ∈ (procFiles vf lang exts items s acc).2,
        d.ext ∈ (procFiles vf lang exts items s acc).1) ∧
      (∀ x ∈ s, x ∈ (procFiles vf lang exts items s acc).1) := by
  revert h1 h2
  induction items generalizing s acc with
  | nil =>
    intro h1 h2
    simp only [procFiles]
    exact ⟨h1, h2, fun x hx => hx⟩
  | cons item rest ih =>
    intro h1 h2
    simp only [procFiles]
    by_cases hc : strToLower item.ext ∈ exts ∧ strToLower item.ext ∉ s
    · rw [if_pos hc]
      have h1' : ((acc ++ [(⟨item.link, lang, gen_subname vf lang (strToLower item.ext),
          strToLower item.ext⟩ : Subtitle)]).map Subtitle.ext).Nodup := by
        rw [List.map_append, List.nodup_append]
        refine ⟨h1, List.nodup_singleton _, ?_⟩
        intro x hx hx'
        simp only [List.map_cons, List.map_nil, List.mem_singleton] at hx'
        rcases List.mem_map.mp hx with ⟨d0, hd0, hdx⟩
        apply hc.2
        rw [← hx', ← hdx]
        exact h2 d0 hd0
      have h2' : ∀ d ∈ acc ++ [(⟨item.link, lang,
          gen_subname vf lang (strToLower item.ext), strToLower item.ext⟩ : Subtitle)],
          d.ext ∈ strToLower item.ext :: s := by
        intro d0 hd0
        rcases List.mem_append.mp hd0 with hmem | hmem
        · exact List.mem_cons_of_mem _ (h2 d0 hmem)
        · have hde : d0 = ⟨item.link, lang, gen_subname vf lang (strToLower item.ext),
              strToLower item.ext⟩ := by simpa using hmem
          rw [hde]
          exact List.mem_cons_self _ _
      obtain ⟨n1, n2, n3⟩ := ih _ _ h1' h2'
      exact ⟨n1, n2, fun x hx => n3 x (List.mem_cons_of_mem _ hx)⟩
    · rw [if_neg hc]
      exact ih _ _ h1 h2

theorem procFiles_append (vf lang : String) (exts : List String)
    (xs ys : List SubFile) (s : List String) (acc : List Subtitle) :
    procFiles vf lang exts (xs ++ ys) s acc =
      procFiles vf lang exts ys (procFiles vf lang exts xs s acc).1
        (procFiles vf lang exts xs s acc).2 := by
  induction xs generalizing s acc with
  | nil => simp [procFiles]
  | cons x rest ih =>
    simp only [List.cons_append, procFiles]
    by_cases hc : strToLower x.ext ∈ exts ∧ strToLower x.ext ∉ s
    · rw [if_pos hc, if_pos hc]
      exact ih _ _
    · rw [if_neg hc, if_neg hc]
      exact ih _ _

theorem procInfos_eq_flat (vf lang : String) (exts : List String)
    (infos : List SubInfo) (s : List String) (acc : List Subtitle) :
    procInfos vf lang exts infos s acc =
      procFiles vf lang exts (infos.flatMap SubInfo.files) s acc := by
  induction infos generalizing s acc with
  | nil => simp [procInfos, procFiles]
  | cons i rest ih =>
    simp only [procInfos, List.flatMap_cons, procFiles_append]
    exact ih _ _

theorem procFiles_acc (vf lang : String) (exts : List String) (items : List SubFile)
    (s : List String) (acc : List Subtitle) :
    procFiles vf lang exts items s acc =
      ((procFiles vf lang exts items s []).1,
        acc ++ (procFiles vf lang exts items s []).2) := by
  induction items generalizing s acc with
  | nil => simp [procFiles]
  | cons item rest ih =>
    simp only [procFiles]
    by_cases hc : strToLower item.ext ∈ exts ∧ strToLower item.ext ∉ s
    · have e1 := ih (strToLower item.ext :: s)
        (acc ++ [(⟨item.link, lang, gen_subname vf lang (strToLower item.ext),
          strToLower item.ext⟩ : Subtitle)])
      have e2 := ih (strToLower item.ext :: s)
        [(⟨item.link, lang, gen_subname vf lang (strToLower item.ext),
          strToLower item.ext⟩ : Subtitle)]
      rw [if_pos hc, if_pos hc]
      simp only [List.nil_append]
      rw [e1, e2]
      simp [List.append_assoc]
    · rw [if_neg hc, if_neg hc]
      exact ih _ _

theorem normLoop_acc (vf : String) (exts : List String)
    (res : List (String × List SubInfo)) (acc : List Subtitle) :
    normLoop vf exts res acc = acc ++ normLoop vf exts res [] := by
  induction res generalizing acc with
  | nil => simp [normLoop]
  | cons p rest ih =>
    obtain ⟨lang, infos⟩ := p
    simp only [normLoop]
    have hL : (procInfos vf lang exts infos [] acc).2 =
        acc ++ (procInfos vf lang exts infos [] []).2 := by
      rw [procInfos_eq_flat vf lang exts infos [] acc,
        procInfos_eq_flat vf lang exts infos [] []]
      rw [procFiles_acc vf lang exts (infos.flatMap SubInfo.files) [] acc]
    rw [hL, ih (acc ++ (procInfos vf lang exts infos [] []).2),
      ih ((procInfos vf lang exts infos [] []).2)]
    simp [List.append_assoc]

theorem normLoop_mem (vf : String) (exts : List String)
    (res : List (String × List SubInfo)) (d : Subtitle)
    (hd : d ∈ normLoop vf exts res []) :
    ∃ p, p ∈ res ∧ d ∈ normalizeLang vf exts p.1 p.2 := by
  induction res with
  | nil => simp [normLoop] at hd
  | cons p rest ih =>
    obtain ⟨lang, infos⟩ := p
    simp only [normLoop] at hd
    rw [normLoop_acc] at hd
    rcases List.mem_append.mp hd with hmem | hmem
    · exact ⟨(lang, infos), List.mem_cons_self _ _, hmem⟩
    · rcases ih hmem with ⟨q, hq, hdq⟩
      exact ⟨q, List.mem_cons_of_mem _ hq, hdq⟩

/-! ### Query-loop invariants -/

theorem queryLoop_ok_keys (transport : Payload → Except String (List SubInfo))
    (fh bn : String) (langs : List String) (res0 : List (String × List SubInfo))
    (log0 : List Payload) (result : List (String × List SubInfo)) (log : List Payload)
    (h : queryLoop transport fh bn langs res0 log0 = (.ok result, log))
    (p : String × List SubInfo) (hp : p ∈ result) :
    p.1 ∈ langs ∨ ∃ v, (p.1, v) ∈ res0 := by
  revert h
  induction langs generalizing res0 log0 with
  | nil =>
    intro h
    simp only [queryLoop, Prod.mk.injEq, Except.ok.injEq] at h
    obtain ⟨h1, h2⟩ := h
    subst h1
    exact Or.inr ⟨p.2, by simpa using hp⟩
  | cons l0 rest ih =>
    intro h
    simp only [queryLoop] at h
    split at h
    next e heq => simp at h
    next r heq =>
      rcases ih _ _ h with h1 | ⟨v, hv⟩
      · exact Or.inl (List.mem_cons_of_mem _ h1)
      · rcases dictInsert_mem _ _ _ _ hv with hm | hk
        · exact Or.inr ⟨v, hm⟩
        · exact Or.inl (by rw [show p.1 = l0 from hk]; exact List.mem_cons_self _ _)

theorem queryLoop_error_form (transport : Payload → Except String (List SubInfo))
    (fh bn : String) (langs : List String) (l e : String)
    (hl : l ∈ langs) (he : transport ⟨fh, bn, "json", l⟩ = .error e)
    (res0 : List (String × List SubInfo)) (log0 : List Payload) :
    ∃ e' l', l' ∈ langs ∧ transport ⟨fh, bn, "json", l'⟩ = .error e' ∧
      (queryLoop transport fh bn langs res0 log0).1 =
        .error (.searchingSubinfoError e') := by
  revert hl
  induction langs generalizing res0 log0 with
  | nil => intro hl; simp at hl
  | cons l0 rest ih =>
    intro hl
    cases ht : transport ⟨fh, bn, "json", l0⟩ with
    | error e0 =>
      refine ⟨e0, l0, List.mem_cons_self _ _, ht, ?_⟩
      simp only [queryLoop]
      rw [ht]
    | ok r =>
      rcases List.mem_cons.mp hl with rfl | hl'
      · rw [he] at ht
        simp at ht
      · rcases ih (dictInsert res0 l0 r) (log0 ++ [⟨fh, bn, "json", l0⟩]) hl' with
          ⟨e', l', hl'', ht', hres⟩
        refine ⟨e', l', List.mem_cons_of_mem _ hl'', ht', ?_⟩
        simp only [queryLoop]
        rw [ht]
        exact hres

/-! ### Inversion of a successful search -/

theorem search_subs_ok_inv (transport : Payload → Except String (List SubInfo))
    (vf : String) (content : Bytes) (ls : Option (List String))
    (es : Option (List String)) (out : List Subtitle)
    (h : (search_subs transport vf content ls es).1 = .ok out) :
    check_languages "ShooterSubSearcher" SUPPORT_LANGUAGES (defaultLangs ls) = .ok () ∧
    check_exts "ShooterSubSearcher" SUPPORT_EXTS (es.getD SUPPORT_EXTS) = .ok () ∧
    ∃ fh result log,
      compute_video_hash vf content = .ok fh ∧
      queryLoop transport fh (osPathSplit vf).2 (defaultLangs ls) [] [] =
        (.ok result, log) ∧
      out = normLoop vf (es.getD SUPPORT_EXTS) result [] := by
  simp only [search_subs] at h
  split at h
  next e heq => simp at h
  next u heq =>
    split at h
    next e heq2 => simp at h
    next u2 heq2 =>
      split at h
      next e heq3 => simp at h
      next fh heq3 =>
        split at h
        next e log heq4 => simp at h
        next result log heq4 =>
          simp only at h
          refine ⟨heq, heq2, fh, result, log, heq3, heq4, ?_⟩
          simpa using h.symm

/-! ### Concrete transports for witnesses -/

/-- A transport stub answering every query with one `SRT` and one `ass`
file entry. -/
def stubOkTransport : Payload → Except String (List SubInfo) :=
  fun _ => .ok [⟨"x", 0, [⟨"SRT", "http://x/1"⟩, ⟨"ass", "http://x/2"⟩]⟩]

/-- A transport stub that always fails. -/
def stubErrTransport : Payload → Except String (List SubInfo) :=
  fun _ => .error "boom"

theorem search_subs_stub_eval :
    (search_subs stubOkTransport "/a/b/video.mkv" ⟨0, 12288⟩ (some ["Eng"]) none).1 =
      .ok [⟨"http://x/1", "Eng", "/a/b/video.Eng.srt", "srt"⟩,
           ⟨"http://x/2", "Eng", "/a/b/video.Eng.ass", "ass"⟩] := by
  simp only [search_subs]
  rw [compute_video_hash_zeros12288]
  decide

/-! ### The claims -/

/-- Claim C1, counterexample: on the 12290-byte file `fileC1` the code's
fingerprint succeeds but differs from the claimed construction, because
the code seeks to `⌊T/3⌋ * 2 = 8192` where the claim says `⌊2T/3⌋ = 8193`. -/
theorem spec_C1_counterexample :
    (compute_video_hash "v.mkv" fileC1).toOption.isSome = true ∧
    (compute_video_hash "v.mkv" fileC1).toOption ≠
      some (claimC1Fingerprint fileC1) := by
  rw [compute_video_hash_fileC1, claimC1Fingerprint_fileC1]
  exact ⟨rfl, by decide⟩

/-- Claim C1 as amended: for every file of size `T ≥ 12288` the fingerprint
is the `;`-join, in this order, of the MD5 hex digests of the four
4096-byte windows at offsets `4096`, `⌊T/3⌋ * 2`, `⌊T/3⌋` and `T - 8192`. -/
theorem spec_C1_amended (videofile : String) (content : Bytes)
    (h : 12288 ≤ content.size) :
    compute_video_hash videofile content =
      .ok (semiJoin
        [md5hex (readAt content 4096 4096),
         md5hex (readAt content (content.size / 3 * 2) 4096),
         md5hex (readAt content (content.size / 3) 4096),
         md5hex (readAt content (content.size - 8192) 4096)]) :=
  compute_video_hash_ok videofile content h

theorem spec_C1_amended_witness :
    12288 ≤ (⟨0, 12288⟩ : Bytes).size ∧
    compute_video_hash "w.mkv" ⟨0, 12288⟩ =
      .ok (semiJoin
        [md5hex (readAt ⟨0, 12288⟩ 4096 4096),
         md5hex (readAt ⟨0, 12288⟩ ((⟨0, 12288⟩ : Bytes).size / 3 * 2) 4096),
         md5hex (readAt ⟨0, 12288⟩ ((⟨0, 12288⟩ : Bytes).size / 3) 4096),
         md5hex (readAt ⟨0, 12288⟩ ((⟨0, 12288⟩ : Bytes).size - 8192) 4096)]) :=
  ⟨by decide, spec_C1_amended "w.mkv" ⟨0, 12288⟩ (by decide)⟩

/-- Claim C2: every record of a successful search is a descriptor whose
suggested name is the video's base name without extension joined with the
record's language and format by dots, placed in the video's directory. -/
theorem spec_C2 (transport : Payload → Except String (List SubInfo))
    (videofile : String) (content : Bytes) (languages exts : Option (List String))
    (out : List Subtitle) (d : Subtitle)
    (h : (search_subs transport videofile content languages exts).1 = .ok out)
    (hd : d ∈ out) :
    d.subname = osPathJoin (osPathSplit videofile).1
      ((osPathSplitext (osPathSplit videofile).2).1 ++ "." ++ d.language ++ "." ++
        d.ext) := by
  obtain ⟨-, -, fh, result, log, -, -, hout⟩ := search_subs_ok_inv _ _ _ _ _ _ h
  subst hout
  obtain ⟨p, -, hdp⟩ := normLoop_mem _ _ _ _ hd
  have heq : normalizeLang videofile (exts.getD SUPPORT_EXTS) p.1 p.2 =
      (procFiles videofile p.1 (exts.getD SUPPORT_EXTS)
        (p.2.flatMap SubInfo.files) [] []).2 := by
    unfold normalizeLang
    rw [procInfos_eq_flat]
  rw [heq] at hdp
  rcases procFiles_mem _ _ _ _ _ _ _ hdp with hfalse | ⟨hlang, -, -, hsub, -⟩
  · simp at hfalse
  · rw [hsub, ← hlang]
    rfl

theorem spec_C2_witness :
    (search_subs stubOkTransport "/a/b/video.mkv" ⟨0, 12288⟩ (some ["Eng"]) none).1 =
      .ok [⟨"http://x/1", "Eng", "/a/b/video.Eng.srt", "srt"⟩,
           ⟨"http://x/2", "Eng", "/a/b/video.Eng.ass", "ass"⟩] ∧
    (⟨"http://x/1", "Eng", "/a/b/video.Eng.srt", "srt"⟩ : Subtitle).subname =
      osPathJoin (osPathSplit "/a/b/video.mkv").1
        ((osPathSplitext (osPathSplit "/a/b/video.mkv").2).1 ++ "." ++ "Eng" ++
          "." ++ "srt") :=
  ⟨search_subs_stub_eval,
   spec_C2 stubOkTransport "/a/b/video.mkv" ⟨0, 12288⟩ (some ["Eng"]) none _ _
     search_subs_stub_eval (by decide)⟩

/-- Claim C3: fingerprinting fails with `InvalidFileError` exactly when the
file is smaller than 12288 bytes, and on success returns the `;`-join of
exactly four 32-character hexadecimal digests. -/
theorem spec_C3 (videofile : String) (content : Bytes) :
    ((compute_video_hash videofile content).toOption = none ↔
      content.size < 12288) ∧
    (content.size < 12288 →
      ∃ m, compute_video_hash videofile content = .error (.invalidFileError m)) ∧
    (12288 ≤ content.size →
      ∃ d1 d2 d3 d4,
        compute_video_hash videofile content = .ok (semiJoin [d1, d2, d3, d4]) ∧
        ∀ dg ∈ [d1, d2, d3, d4], dg.length = 32 ∧ ∀ c ∈ dg.data, c ∈ hexChars) := by
  by_cases hs : content.size < 12288
  · have he : compute_video_hash videofile content =
        .error (.invalidFileError
          ("the video[" ++ osPathBasename videofile ++ "] is too small")) := by
      unfold ShooterSubSearcher.compute_video_hash
      rw [if_pos (by omega)]
    refine ⟨?_, fun _ => ⟨_, he⟩, fun h12 => absurd hs (by omega)⟩
    rw [he]
    simp [Except.toOption, hs]
  · have h12 : 12288 ≤ content.size := by omega
    have hok := compute_video_hash_ok videofile content h12
    refine ⟨?_, fun hlt => absurd hlt hs, fun _ => ?_⟩
    · rw [hok]
      simp [Except.toOption, hs]
    · refine ⟨_, _, _, _, hok, ?_⟩
      intro dg hdg
      simp only [List.mem_cons, List.not_mem_nil, or_false] at hdg
      rcases hdg with rfl | rfl | rfl | rfl <;>
        exact ⟨md5hex_length _, md5hex_chars _⟩

theorem spec_C3_witness :
    ((compute_video_hash "v.mkv" ⟨0, 12287⟩).toOption = none) ∧
    (∃ d1 d2 d3 d4,
        compute_video_hash "v.mkv" ⟨0, 12288⟩ = .ok (semiJoin [d1, d2, d3, d4]) ∧
        ∀ dg ∈ [d1, d2, d3, d4], dg.length = 32 ∧ ∀ c ∈ dg.data, c ∈ hexChars) :=
  ⟨(spec_C3 "v.mkv" ⟨0, 12287⟩).1.mpr (by decide),
   (spec_C3 "v.mkv" ⟨0, 12288⟩).2.2 (by decide)⟩

/-- Claim C4: a requested language outside `SUPPORT_LANGUAGES` makes the
call fail with the language error and issues no network request at all
(the request trace is empty), whatever the transport would answer. -/
theorem spec_C4 (transport : Payload → Except String (List SubInfo))
    (videofile : String) (content : Bytes) (langs : List String)
    (exts : Option (List String)) (l : String)
    (hl : l ∈ langs) (hns : l ∉ SUPPORT_LANGUAGES) :
    (∃ m, (search_subs transport videofile content (some langs) exts).1 =
        .error (.languageError m)) ∧
    (search_subs transport videofile content (some langs) exts).2 = [] := by
  obtain ⟨m, hm⟩ := check_languages_unsupported "ShooterSubSearcher"
    SUPPORT_LANGUAGES langs l hl hns
  have hres : search_subs transport videofile content (some langs) exts =
      (.error (.languageError m), []) := by
    simp only [search_subs]
    rw [show defaultLangs (some langs) = langs from rfl, hm]
  rw [hres]
  exact ⟨⟨m, rfl⟩, rfl⟩

theorem spec_C4_witness :
    "Esperanto" ∈ ["Esperanto"] ∧ "Esperanto" ∉ SUPPORT_LANGUAGES ∧
    ((∃ m, (search_subs stubOkTransport "/a/b/video.mkv" ⟨0, 12288⟩
        (some ["Esperanto"]) none).1 = .error (.languageError m)) ∧
      (search_subs stubOkTransport "/a/b/video.mkv" ⟨0, 12288⟩
        (some ["Esperanto"]) none).2 = []) :=
  ⟨by decide, by decide,
   spec_C4 stubOkTransport "/a/b/video.mkv" ⟨0, 12288⟩ ["Esperanto"] none
     "Esperanto" (by decide) (by decide)⟩

/-- Claim C5: per language, the normaliser emits only requested formats, at
most one descriptor per format, and each descriptor's link is the link of
the first file entry in response order whose lowercased extension matches
its format. -/
theorem spec_C5 (videofile : String) (exts : List String) (language : String)
    (subinfolist : List SubInfo) (d : Subtitle)
    (hd : d ∈ normalizeLang videofile exts language subinfolist) :
    (d.ext ∈ exts ∧
      ∃ it, (subinfolist.flatMap SubInfo.files).find?
          (fun i => strToLower i.ext == d.ext) = some it ∧ d.link = it.link) ∧
    ((normalizeLang videofile exts language subinfolist).map Subtitle.ext).Nodup := by
  have heq : normalizeLang videofile exts language subinfolist =
      (procFiles videofile language exts
        (subinfolist.flatMap SubInfo.files) [] []).2 := by
    unfold normalizeLang
    rw [procInfos_eq_flat]
  rw [heq] at hd
  constructor
  · rcases procFiles_mem _ _ _ _ _ _ _ hd with hfalse | ⟨-, hext, -, -, it, hfind, hlink⟩
    · simp at hfalse
    · exact ⟨hext, it, hfind, hlink⟩
  · rw [heq]
    exact (procFiles_shape videofile language exts
      (subinfolist.flatMap SubInfo.files) [] [] (by simp) (by simp)).1

theorem spec_C5_witness :
    (⟨"l1", "Eng", "/v.Eng.srt", "srt"⟩ : Subtitle) ∈
      normalizeLang "/v.mkv" ["ass", "srt"] "Eng"
        [⟨"x", 0, [⟨"SRT", "l1"⟩, ⟨"srt", "l2"⟩, ⟨"ass", "l3"⟩]⟩] ∧
    (((⟨"l1", "Eng", "/v.Eng.srt", "srt"⟩ : Subtitle).ext ∈ ["ass", "srt"] ∧
      ∃ it, (([⟨"x", 0, [⟨"SRT", "l1"⟩, ⟨"srt", "l2"⟩, ⟨"ass", "l3"⟩]⟩] :
          List SubInfo).flatMap SubInfo.files).find?
          (fun i => strToLower i.ext ==
            (⟨"l1", "Eng", "/v.Eng.srt", "srt"⟩ : Subtitle).ext) = some it ∧
        (⟨"l1", "Eng", "/v.Eng.srt", "srt"⟩ : Subtitle).link = it.link) ∧
    ((normalizeLang "/v.mkv" ["ass", "srt"] "Eng"
        [⟨"x", 0, [⟨"SRT", "l1"⟩, ⟨"srt", "l2"⟩, ⟨"ass", "l3"⟩]⟩]).map
      Subtitle.ext).Nodup) :=
  ⟨by decide,
   spec_C5 "/v.mkv" ["ass", "srt"] "Eng"
     [⟨"x", 0, [⟨"SRT", "l1"⟩, ⟨"srt", "l2"⟩, ⟨"ass", "l3"⟩]⟩]
     ⟨"l1", "Eng", "/v.Eng.srt", "srt"⟩ (by decide)⟩

/-- Claim C6: the fingerprint is a function of the file content alone:
recomputing on the same bytes yields the same string, and byte-identical
files under two different paths yield identical fingerprints. -/
theorem spec_C6 (p1 p2 : String) (c1 c2 : Bytes) (hc : c1 = c2)
    (h : 12288 ≤ c1.size) :
    compute_video_hash p1 c1 = compute_video_hash p1 c1 ∧
    compute_video_hash p1 c1 = compute_video_hash p2 c2 := by
  subst hc
  refine ⟨rfl, ?_⟩
  rw [compute_video_hash_ok p1 c1 h, compute_video_hash_ok p2 c1 h]

theorem spec_C6_witness :
    compute_video_hash "/a/v.mkv" ⟨0, 12288⟩ =
      compute_video_hash "/a/v.mkv" ⟨0, 12288⟩ ∧
    compute_video_hash "/a/v.mkv" ⟨0, 12288⟩ =
      compute_video_hash "/b/w.avi" ⟨0, 12288⟩ :=
  spec_C6 "/a/v.mkv" "/b/w.avi" ⟨0, 12288⟩ ⟨0, 12288⟩ rfl (by decide)

/-- Claim C7: registering a provider under an already-bound name silently
overwrites the binding (last registration wins), and lookup of an
unregistered name returns the caller-supplied fallback. -/
theorem spec_C7 (reg : List (String × SubSearcherCls)) (name : String)
    (A B : SubSearcherCls) (regA regB : List (String × SubSearcherCls))
    (hA : register_subsearcher reg name A = .ok regA)
    (hB : register_subsearcher regA name B = .ok regB)
    (n' : String) (fb : Option SubSearcherCls) (hn : dictGet? reg n' = none) :
    get_subsearcher regB name fb = some B ∧ get_subsearcher reg n' fb = fb := by
  constructor
  · have hBreg : regB = dictInsert regA name B := by
      unfold register_subsearcher at hB
      split at hB
      · simp at hB
      · simpa using hB.symm
    rw [hBreg]
    unfold get_subsearcher
    rw [dictGet?_insert_self]
  · unfold get_subsearcher
    rw [hn]

theorem spec_C7_witness :
    get_subsearcher [("shooter", ⟨"B", true⟩)] "shooter" none = some ⟨"B", true⟩ ∧
    get_subsearcher [] "missing" none = none :=
  spec_C7 [] "shooter" ⟨"A", true⟩ ⟨"B", true⟩ [("shooter", ⟨"A", true⟩)]
    [("shooter", ⟨"B", true⟩)] (by decide) (by decide) "missing" none (by decide)

/-- Claim C8: every descriptor of a successful search has a language in the
provider's `SUPPORT_LANGUAGES` and a format in its `SUPPORT_EXTS`. -/
theorem spec_C8 (transport : Payload → Except String (List SubInfo))
    (videofile : String) (content : Bytes) (languages exts : Option (List String))
    (out : List Subtitle) (d : Subtitle)
    (h : (search_subs transport videofile content languages exts).1 = .ok out)
    (hd : d ∈ out) :
    d.language ∈ SUPPORT_LANGUAGES ∧ d.ext ∈ SUPPORT_EXTS := by
  obtain ⟨hcl, hce, fh, result, log, -, hq, hout⟩ := search_subs_ok_inv _ _ _ _ _ _ h
  subst hout
  obtain ⟨p, hpres, hdp⟩ := normLoop_mem _ _ _ _ hd
  have heq : normalizeLang videofile (exts.getD SUPPORT_EXTS) p.1 p.2 =
      (procFiles videofile p.1 (exts.getD SUPPORT_EXTS)
        (p.2.flatMap SubInfo.files) [] []).2 := by
    unfold normalizeLang
    rw [procInfos_eq_flat]
  rw [heq] at hdp
  rcases procFiles_mem _ _ _ _ _ _ _ hdp with hfalse | ⟨hlang, hext, -, -, -⟩
  · simp at hfalse
  · constructor
    · rw [hlang]
      rcases queryLoop_ok_keys _ _ _ _ _ _ _ _ hq p hpres with hkey | ⟨v, hv⟩
      · exact check_languages_ok_mem _ _ _ hcl p.1 hkey
      · simp at hv
    · exact check_exts_ok_mem _ _ _ hce d.ext hext

theorem spec_C8_witness :
    (⟨"http://x/2", "Eng", "/a/b/video.Eng.ass", "ass"⟩ : Subtitle).language ∈
      SUPPORT_LANGUAGES ∧
    (⟨"http://x/2", "Eng", "/a/b/video.Eng.ass", "ass"⟩ : Subtitle).ext ∈
      SUPPORT_EXTS :=
  spec_C8 stubOkTransport "/a/b/video.mkv" ⟨0, 12288⟩ (some ["Eng"]) none _ _
    search_subs_stub_eval (by decide)

/-- Claim C9: a transport or decode failure for any requested language
aborts the whole call with `SearchingSubinfoError` wrapping an actual
underlying cause; no partial results are returned. -/
theorem spec_C9 (transport : Payload → Except String (List SubInfo))
    (videofile : String) (content : Bytes) (langs : List String)
    (exts : Option (List String)) (fh l e : String)
    (hlang : ∀ x ∈ langs, x ∈ SUPPORT_LANGUAGES)
    (hexts : check_exts "ShooterSubSearcher" SUPPORT_EXTS
      (exts.getD SUPPORT_EXTS) = .ok ())
    (hfh : compute_video_hash videofile content = .ok fh)
    (hl : l ∈ langs)
    (he : transport ⟨fh, (osPathSplit videofile).2, "json", l⟩ = .error e) :
    ∃ e' l', l' ∈ langs ∧
      transport ⟨fh, (osPathSplit videofile).2, "json", l'⟩ = .error e' ∧
      (search_subs transport videofile content (some langs) exts).1 =
        .error (.searchingSubinfoError e') := by
  obtain ⟨e', l', hl', ht', hres⟩ := queryLoop_error_form transport fh
    (osPathSplit videofile).2 langs l e hl he [] []
  refine ⟨e', l', hl', ht', ?_⟩
  simp only [search_subs]
  rw [show defaultLangs (some langs) = langs from rfl]
  rw [check_languages_complete "ShooterSubSearcher" SUPPORT_LANGUAGES langs hlang]
  rw [hexts, hfh]
  dsimp only
  cases hq : queryLoop transport fh (osPathSplit videofile).2 langs [] [] with
  | mk r log =>
    rw [hq] at hres
    cases r with
    | error er => simpa using hres
    | ok result => simp at hres

theorem spec_C9_witness :
    ∃ e' l', l' ∈ ["Eng"] ∧
      stubErrTransport ⟨zerosFileHash, (osPathSplit "/a/b/video.mkv").2, "json",
        l'⟩ = .error e' ∧
      (search_subs stubErrTransport "/a/b/video.mkv" ⟨0, 12288⟩ (some ["Eng"])
        none).1 = .error (.searchingSubinfoError e') :=
  spec_C9 stubErrTransport "/a/b/video.mkv" ⟨0, 12288⟩ ["Eng"] none zerosFileHash
    "Eng" "boom" (by decide) (by decide) (compute_video_hash_zeros12288 _)
    (by decide) (by decide)

/-- Claim C10: when the request carries both an unsupported language and an
unsupported format, the raised error is the language error, because the
language check runs before the format check. -/
theorem spec_C10 (transport : Payload → Except String (List SubInfo))
    (videofile : String) (content : Bytes) (langs es : List String)
    (l x : String) (hl : l ∈ langs) (hns : l ∉ SUPPORT_LANGUAGES)
    (hx : x ∈ es) (hxs : x ∉ SUPPORT_EXTS) :
    ∃ m, (search_subs transport videofile content (some langs) (some es)).1 =
      .error (.languageError m) := by
  obtain ⟨m, hm⟩ := check_languages_unsupported "ShooterSubSearcher"
    SUPPORT_LANGUAGES langs l hl hns
  refine ⟨m, ?_⟩
  simp only [search_subs]
  rw [show defaultLangs (some langs) = langs from rfl, hm]

theorem spec_C10_witness :
    ∃ m, (search_subs stubOkTransport "/a/b/video.mkv" ⟨0, 12288⟩
        (some ["Esperanto"]) (some ["mkv"])).1 = .error (.languageError m) :=
  spec_C10 stubOkTransport "/a/b/video.mkv" ⟨0, 12288⟩ ["Esperanto"] ["mkv"]
    "Esperanto" "mkv" (by decide) (by decide) (by decide) (by decide)
